import Mathlib

set_option maxRecDepth 16000

/-!
Verification of the Citrust client-side streaming core.

This file shallowly embeds the SSE event decoder (`streamDualResponses` in
the API client) and the dual-stream reducer / preference submitter
(`ChatPlayground.tsx`) and proves the specified properties about them.

Modelling conventions:
* JavaScript strings are modelled as Lean `String` (decoded text as
  `List Char` where incremental processing makes that easier).
* Bytes are `Nat` values `< 256`.
* JavaScript truthiness tests that the source performs on optional fields
  (`event.trace_id`, `event.response_id`, `event.content || ''`,
  `event.model || resp.model`) are modelled explicitly: `none`, `some ""`
  and `some (0 : Int)` are falsy.
-/

/-- A decoded stream event, as produced by `JSON.parse(line.slice(6)) as
StreamEvent` in the API client.  The cast performs no validation, so every
field, including `type`, is optional; a field is `none` when it is absent
from the JSON object or has the wrong runtime type. -/
structure StreamEvent where
  type : Option String
  trace_id : Option String
  response_id : Option Int
  content : Option String
  error : Option String
  model : Option String
deriving Repr, DecidableEq

/-- One response buffer of the chat playground (`DualResponse` in
`ChatPlayground.tsx`). -/
structure DualResponse where
  id : Int
  content : String
  model : String
  isStreaming : Bool
deriving Repr, DecidableEq

/-- The reducer-visible component state: the two response buffers and the
current trace id (`dualResponses` / `currentTraceId` state hooks). -/
structure ChatState where
  dualResponses : List DualResponse
  currentTraceId : Option String
deriving Repr, DecidableEq

/-- JavaScript truthiness of an optional string (`undefined` and `""` are
falsy). -/
def jsTruthyStr : Option String → Bool
  | none => false
  | some s => s ≠ ""

/-- JavaScript truthiness of an optional number (`undefined` and `0` are
falsy). -/
def jsTruthyInt : Option Int → Bool
  | none => false
  | some n => n ≠ 0

/-- The JavaScript expression `o || d` for an optional string `o`. -/
def jsOrStr (o : Option String) (d : String) : String :=
  match o with
  | none => d
  | some s => if s = "" then d else s

/-- The per-buffer effect of one event: the body of the `prev.map(...)`
calls inside the event loop of `handleSubmit`. -/
def bufStep (e : StreamEvent) (r : DualResponse) : DualResponse :=
  if e.type = some "content" ∧ jsTruthyInt e.response_id then
    if some r.id = e.response_id then
      { r with
        content := r.content ++ jsOrStr e.content ""
        model := jsOrStr e.model r.model }
    else r
  else if e.type = some "streams_complete" then
    { r with isStreaming := false }
  else r

/-- One iteration of the `for await (const event of stream)` loop in
`handleSubmit`: the four-way branch on `event.type` (with the source's
truthiness guards on `event.trace_id` and `event.response_id`).  The
`error` branch only logs, so it leaves the state unchanged. -/
def applyEvent (st : ChatState) (e : StreamEvent) : ChatState :=
  if e.type = some "trace_info" ∧ jsTruthyStr e.trace_id then
    { st with currentTraceId := e.trace_id }
  else if e.type = some "content" ∧ jsTruthyInt e.response_id then
    { st with
      dualResponses := st.dualResponses.map fun r =>
        if some r.id = e.response_id then
          { r with
            content := r.content ++ jsOrStr e.content ""
            model := jsOrStr e.model r.model }
        else r }
  else if e.type = some "streams_complete" then
    { st with
      dualResponses := st.dualResponses.map fun r =>
        { r with isStreaming := false } }
  else st

/-- Folding a whole event sequence through the reducer. -/
def applyEvents (st : ChatState) (es : List StreamEvent) : ChatState :=
  es.foldl applyEvent st

/-- The buffers installed at exchange start by `handleSubmit`. -/
def initResponses : List DualResponse :=
  [ { id := 1, content := "", model := "gemini-2.5-flash", isStreaming := true },
    { id := 2, content := "", model := "gemini-1.5-flash", isStreaming := true } ]

/-- Reducer state at the start of an exchange. -/
def initChatState : ChatState :=
  { dualResponses := initResponses, currentTraceId := none }

theorem bufStep_id (e : StreamEvent)
    (hc : ¬ (e.type = some "content" ∧ jsTruthyInt e.response_id = true))
    (hs : e.type ≠ some "streams_complete") (r : DualResponse) :
    bufStep e r = r := by
  unfold bufStep
  rw [if_neg hc, if_neg hs]

/-- The buffer list of `applyEvent` is a pointwise `bufStep`. -/
theorem applyEvent_dualResponses (st : ChatState) (e : StreamEvent) :
    (applyEvent st e).dualResponses = st.dualResponses.map (bufStep e) := by
  by_cases h1 : e.type = some "trace_info" ∧ jsTruthyStr e.trace_id = true
  · have hc : ¬ (e.type = some "content" ∧ jsTruthyInt e.response_id = true) := by
      rintro ⟨hc, -⟩
      rw [h1.1] at hc
      exact absurd (Option.some.inj hc) (by decide)
    have hs : e.type ≠ some "streams_complete" := by
      intro hs
      rw [h1.1] at hs
      exact absurd (Option.some.inj hs) (by decide)
    simp only [applyEvent, if_pos h1]
    calc st.dualResponses = st.dualResponses.map id := (List.map_id _).symm
      _ = st.dualResponses.map (bufStep e) :=
        List.map_congr_left fun r _ => (bufStep_id e hc hs r).symm
  · by_cases h2 : e.type = some "content" ∧ jsTruthyInt e.response_id = true
    · simp only [applyEvent, if_neg h1, if_pos h2]
      apply List.map_congr_left
      intro r _
      unfold bufStep
      rw [if_pos h2]
    · by_cases h3 : e.type = some "streams_complete"
      · simp only [applyEvent, if_neg h1, if_neg h2, if_pos h3]
        apply List.map_congr_left
        intro r _
        unfold bufStep
        rw [if_neg h2, if_pos h3]
      · simp only [applyEvent, if_neg h1, if_neg h2, if_neg h3]
        calc st.dualResponses = st.dualResponses.map id := (List.map_id _).symm
          _ = st.dualResponses.map (bufStep e) :=
            List.map_congr_left fun r _ => (bufStep_id e h2 h3 r).symm

/-- Concatenation of a list of strings, in list order. -/
def strConcat : List String → String
  | [] => ""
  | s :: rest => s ++ strConcat rest

/-- The `content` payloads of the events addressed to buffer id `rid`, in
stream order (absent payloads read as the empty string, as in the source's
`event.content || ''`). -/
def fragsFor (rid : Int) (es : List StreamEvent) : List String :=
  es.filterMap fun e =>
    if e.type = some "content" ∧ e.response_id = some rid then
      some (jsOrStr e.content "")
    else none

/-- Folding a whole event sequence through a single buffer. -/
def bufFold (es : List StreamEvent) (r : DualResponse) : DualResponse :=
  es.foldl (fun r e => bufStep e r) r

theorem applyEvents_dualResponses (es : List StreamEvent) (st : ChatState) :
    (applyEvents st es).dualResponses = st.dualResponses.map (bufFold es) := by
  induction es generalizing st with
  | nil =>
    simp only [applyEvents, List.foldl_nil, bufFold]
    exact (List.map_id _).symm
  | cons e es ih =>
    have h1 : applyEvents st (e :: es) = applyEvents (applyEvent st e) es := rfl
    rw [h1, ih, applyEvent_dualResponses, List.map_map]
    rfl

theorem bufStep_id_eq (e : StreamEvent) (r : DualResponse) :
    (bufStep e r).id = r.id := by
  unfold bufStep
  split_ifs <;> rfl

theorem bufStep_isStreaming_of_content (e : StreamEvent) (r : DualResponse)
    (h : e.type = some "content") :
    (bufStep e r).isStreaming = r.isStreaming := by
  unfold bufStep
  have hs : e.type ≠ some "streams_complete" := by
    rw [h]; intro hc; exact absurd (Option.some.inj hc) (by decide)
  split_ifs <;> rfl

/-- Appending through a buffer: the final content is the initial content
followed by the addressed fragments in exactly their stream order. -/
theorem bufFold_content (es : List StreamEvent) (r : DualResponse)
    (h : r.id ≠ 0) :
    (bufFold es r).content = r.content ++ strConcat (fragsFor r.id es) := by
  induction es generalizing r with
  | nil =>
    simp only [bufFold, List.foldl_nil, fragsFor, List.filterMap_nil, strConcat]
    exact (String.append_empty _).symm
  | cons e es ih =>
    have hid : (bufStep e r).id = r.id := bufStep_id_eq e r
    have hstep : bufFold (e :: es) r = bufFold es (bufStep e r) := rfl
    rw [hstep, ih (bufStep e r) (by rw [hid]; exact h), hid]
    by_cases hc : e.type = some "content" ∧ e.response_id = some r.id
    · have htr : jsTruthyInt e.response_id = true := by
        rw [hc.2]
        exact decide_eq_true h
      have hb : bufStep e r =
          { r with
            content := r.content ++ jsOrStr e.content ""
            model := jsOrStr e.model r.model } := by
        unfold bufStep
        rw [if_pos ⟨hc.1, htr⟩, if_pos hc.2.symm]
      have hf : fragsFor r.id (e :: es) =
          jsOrStr e.content "" :: fragsFor r.id es := by
        simp only [fragsFor, List.filterMap_cons, if_pos hc]
      rw [hb, hf]
      exact String.append_assoc _ _ _
    · have hcontent : (bufStep e r).content = r.content := by
        unfold bufStep
        split_ifs with hA hB hC
        · exact absurd ⟨hA.1, hB.symm⟩ hc
        · rfl
        · rfl
        · rfl
      have hf : fragsFor r.id (e :: es) = fragsFor r.id es := by
        simp only [fragsFor, List.filterMap_cons, if_neg hc]
      rw [hcontent, hf]

/-- C2: a `streams_complete` event clears `isStreaming` on every buffer at
once and changes nothing else: neither the other buffer fields nor the
trace id. -/
theorem streamsComplete_clears_both (st : ChatState) (e : StreamEvent)
    (h : e.type = some "streams_complete") :
    (applyEvent st e).dualResponses
        = st.dualResponses.map (fun r => { r with isStreaming := false })
      ∧ (applyEvent st e).currentTraceId = st.currentTraceId
      ∧ ∀ b1 b2 : DualResponse, st.dualResponses = [b1, b2] →
          (applyEvent st e).dualResponses
            = [ { b1 with isStreaming := false },
                { b2 with isStreaming := false } ] := by
  have h1 : ¬ (e.type = some "trace_info" ∧ jsTruthyStr e.trace_id = true) := by
    rintro ⟨ht, -⟩
    rw [h] at ht
    exact absurd (Option.some.inj ht) (by decide)
  have h2 : ¬ (e.type = some "content" ∧ jsTruthyInt e.response_id = true) := by
    rintro ⟨ht, -⟩
    rw [h] at ht
    exact absurd (Option.some.inj ht) (by decide)
  refine ⟨?_, ?_, ?_⟩
  · simp only [applyEvent, if_neg h1, if_neg h2, if_pos h]
  · simp only [applyEvent, if_neg h1, if_neg h2, if_pos h]
  · intro b1 b2 hst
    simp only [applyEvent, if_neg h1, if_neg h2, if_pos h, hst, List.map_cons,
      List.map_nil]

/-- C2 witness: a `streams_complete` event applied to a state where buffer 1
holds text and buffer 2 received nothing. -/
theorem streamsComplete_clears_both_witness :
    (applyEvent
        { dualResponses :=
            [ { id := 1, content := "Hel", model := "gemini-2.5-flash", isStreaming := true },
              { id := 2, content := "", model := "gemini-1.5-flash", isStreaming := true } ],
          currentTraceId := some "t1" }
        { type := some "streams_complete", trace_id := none, response_id := none,
          content := none, error := none, model := none }).dualResponses
      = [ { id := 1, content := "Hel", model := "gemini-2.5-flash", isStreaming := false },
          { id := 2, content := "", model := "gemini-1.5-flash", isStreaming := false } ] := by
  have h := streamsComplete_clears_both
    { dualResponses :=
        [ { id := 1, content := "Hel", model := "gemini-2.5-flash", isStreaming := true },
          { id := 2, content := "", model := "gemini-1.5-flash", isStreaming := true } ],
      currentTraceId := some "t1" }
    { type := some "streams_complete", trace_id := none, response_id := none,
      content := none, error := none, model := none }
    rfl
  exact h.2.2 _ _ rfl

/-- C3: a `content` event whose `response_id` is not one of the declared
buffer ids leaves the whole reducer state (both buffers and the trace id)
unchanged; the application is total, so it cannot fail. -/
theorem contentUnknownIdIgnored (st : ChatState) (e : StreamEvent)
    (hty : e.type = some "content")
    (hids : ∀ r ∈ st.dualResponses, r.id = 1 ∨ r.id = 2)
    (hout1 : e.response_id ≠ some 1) (hout2 : e.response_id ≠ some 2) :
    applyEvent st e = st := by
  have h1 : ¬ (e.type = some "trace_info" ∧ jsTruthyStr e.trace_id = true) := by
    rintro ⟨ht, -⟩
    rw [hty] at ht
    exact absurd (Option.some.inj ht) (by decide)
  have h3 : e.type ≠ some "streams_complete" := by
    rw [hty]
    intro hc
    exact absurd (Option.some.inj hc) (by decide)
  by_cases h2 : e.type = some "content" ∧ jsTruthyInt e.response_id = true
  · simp only [applyEvent, if_neg h1, if_pos h2]
    cases st with
    | mk rs tr =>
      simp only [ChatState.mk.injEq, and_true]
      calc rs.map (fun r =>
              if some r.id = e.response_id then
                { r with
                  content := r.content ++ jsOrStr e.content ""
                  model := jsOrStr e.model r.model }
              else r)
          = rs.map id := by
            apply List.map_congr_left
            intro r hr
            have : some r.id ≠ e.response_id := by
              rcases hids r hr with h | h <;> rw [h]
              · exact fun hc => hout1 hc.symm
              · exact fun hc => hout2 hc.symm
            rw [if_neg this]
            rfl
        _ = rs := List.map_id rs
  · simp only [applyEvent, if_neg h1, if_neg h2, if_neg h3]

/-- C3 witness: a `content` event with `response_id = 7` applied to the
initial exchange state. -/
theorem contentUnknownIdIgnored_witness :
    applyEvent initChatState
      { type := some "content", trace_id := none, response_id := some 7,
        content := some "zzz", error := none, model := some "mystery" }
      = initChatState :=
  contentUnknownIdIgnored initChatState
    { type := some "content", trace_id := none, response_id := some 7,
      content := some "zzz", error := none, model := some "mystery" }
    rfl (by decide) (by decide) (by decide)

/-- A `content` event addressed to buffer 1 that carries an empty-string
`model` label. -/
def c9Event : StreamEvent :=
  { type := some "content", trace_id := none, response_id := some 1,
    content := some "x", error := none, model := some "" }

/-- C9 counterexample: `c9Event` carries a `model` label (the empty
string), yet applying it leaves buffer 1's label at its previous value
`"gemini-2.5-flash"` instead of overwriting it, because the source uses
the truthiness fallback `event.model || resp.model`. -/
theorem contentModelOverwrite_counterexample :
    c9Event.type = some "content"
      ∧ c9Event.response_id = some 1
      ∧ c9Event.model = some ""
      ∧ (applyEvent initChatState c9Event).dualResponses.map DualResponse.model
          = ["gemini-2.5-flash", "gemini-1.5-flash"]
      ∧ "gemini-2.5-flash" ≠ "" := by
  refine ⟨rfl, rfl, rfl, ?_, by decide⟩
  decide

/-- C9 (amended): for a `content` event addressed to a known buffer id, the
event's content (empty string when absent) is appended to that buffer,
a non-empty `model` label overwrites the buffer's label, while an absent or
empty-string `model` label leaves the label unchanged; the other buffer and
the remaining fields are untouched. -/
theorem contentEventUpdatesBuffer (st : ChatState) (e : StreamEvent)
    (b1 b2 : DualResponse) (rid : Int)
    (hst : st.dualResponses = [b1, b2]) (hb1 : b1.id = 1) (hb2 : b2.id = 2)
    (hty : e.type = some "content") (hrid : e.response_id = some rid)
    (hknown : rid = 1 ∨ rid = 2) :
    ∃ b1' b2' : DualResponse,
      (applyEvent st e).dualResponses = [b1', b2']
      ∧ (rid = 1 →
          b1'.content = b1.content ++ (e.content.getD "")
          ∧ (e.model = none → b1'.model = b1.model)
          ∧ (e.model = some "" → b1'.model = b1.model)
          ∧ (∀ m : String, e.model = some m → m ≠ "" → b1'.model = m)
          ∧ b1'.id = b1.id ∧ b1'.isStreaming = b1.isStreaming
          ∧ b2' = b2)
      ∧ (rid = 2 →
          b2'.content = b2.content ++ (e.content.getD "")
          ∧ (e.model = none → b2'.model = b2.model)
          ∧ (e.model = some "" → b2'.model = b2.model)
          ∧ (∀ m : String, e.model = some m → m ≠ "" → b2'.model = m)
          ∧ b2'.id = b2.id ∧ b2'.isStreaming = b2.isStreaming
          ∧ b1' = b1) := by
  have hne : rid ≠ 0 := by rcases hknown with h | h <;> rw [h] <;> decide
  have h1 : ¬ (e.type = some "trace_info" ∧ jsTruthyStr e.trace_id = true) := by
    rintro ⟨ht, -⟩
    rw [hty] at ht
    exact absurd (Option.some.inj ht) (by decide)
  have h2 : e.type = some "content" ∧ jsTruthyInt e.response_id = true :=
    ⟨hty, by rw [hrid]; exact decide_eq_true hne⟩
  have hcontent : ∀ r : DualResponse, r.content ++ jsOrStr e.content ""
      = r.content ++ (e.content.getD "") := by
    intro r
    cases h : e.content with
    | none => rfl
    | some s =>
      by_cases hs : s = ""
      · subst hs; rfl
      · simp [jsOrStr, hs, Option.getD]
  have hmodel : ∀ r : DualResponse,
      (e.model = none → jsOrStr e.model r.model = r.model)
      ∧ (e.model = some "" → jsOrStr e.model r.model = r.model)
      ∧ (∀ m : String, e.model = some m → m ≠ "" → jsOrStr e.model r.model = m) := by
    intro r
    refine ⟨fun h => by rw [h]; rfl, fun h => by rw [h]; rfl, fun m hm hne => ?_⟩
    rw [hm]
    simp [jsOrStr, hne]
  simp only [applyEvent, if_neg h1, if_pos h2, hst, List.map_cons, List.map_nil]
  rcases hknown with h | h
  · subst h
    have ht1 : (some b1.id = e.response_id) := by rw [hb1, hrid]
    have ht2 : ¬ (some b2.id = e.response_id) := by rw [hb2, hrid]; decide
    rw [if_pos ht1, if_neg ht2]
    refine ⟨_, _, rfl, fun _ => ⟨hcontent b1, (hmodel b1).1, (hmodel b1).2.1,
      (hmodel b1).2.2, rfl, rfl, rfl⟩, fun hcontra => absurd hcontra (by decide)⟩
  · subst h
    have ht1 : ¬ (some b1.id = e.response_id) := by rw [hb1, hrid]; decide
    have ht2 : (some b2.id = e.response_id) := by rw [hb2, hrid]
    rw [if_neg ht1, if_pos ht2]
    refine ⟨_, _, rfl, fun hcontra => absurd hcontra (by decide),
      fun _ => ⟨hcontent b2, (hmodel b2).1, (hmodel b2).2.1,
        (hmodel b2).2.2, rfl, rfl, rfl⟩⟩

/-- C9 witness: a `content` event for buffer 2 carrying text and a
non-empty model label, applied to the initial exchange state. -/
theorem contentEventUpdatesBuffer_witness :
    ∃ b1' b2' : DualResponse,
      (applyEvent initChatState
          { type := some "content", trace_id := none, response_id := some 2,
            content := some "hi", error := none, model := some "m2" }).dualResponses
        = [b1', b2']
      ∧ b2'.content = "" ++ "hi" ∧ b2'.model = "m2"
      ∧ b1' = initResponses.get ⟨0, by decide⟩ := by
  obtain ⟨b1', b2', heq, -, h2⟩ := contentEventUpdatesBuffer initChatState
    { type := some "content", trace_id := none, response_id := some 2,
      content := some "hi", error := none, model := some "m2" }
    (initResponses.get ⟨0, by decide⟩) (initResponses.get ⟨1, by decide⟩) 2
    rfl rfl rfl rfl rfl (Or.inr rfl)
  obtain ⟨hc, -, -, hm, -, -, hother⟩ := h2 rfl
  exact ⟨b1', b2', heq, hc, hm "m2" rfl (by decide), hother⟩

/-- JSON values, as produced by `JSON.parse`.  A numeric literal is kept as
`num (some n)` when it denotes exactly the integer `n` and `num none`
otherwise; the reducer only ever compares numbers against the buffer ids. -/
inductive Json where
  | null
  | bool (b : Bool)
  | str (s : String)
  | num (intVal : Option Int)
  | arr (elems : List Json)
  | obj (fields : List (String × Json))

/-- JSON insignificant whitespace. -/
def isJsonWs (c : Char) : Bool :=
  c = ' ' ∨ c = '\t' ∨ c = '\n' ∨ c = '\r'

def skipWs : List Char → List Char
  | [] => []
  | c :: cs => if isJsonWs c then skipWs cs else c :: cs

def hexVal (c : Char) : Option Nat :=
  if '0' ≤ c ∧ c ≤ '9' then some (c.toNat - 48)
  else if 'a' ≤ c ∧ c ≤ 'f' then some (c.toNat - 87)
  else if 'A' ≤ c ∧ c ≤ 'F' then some (c.toNat - 55)
  else none

/-- The interpretation of a single-character JSON escape, when legal. -/
def escChar (c : Char) : Option Char :=
  if c = '"' ∨ c = '\\' ∨ c = '/' then some c
  else if c = 'b' then some (Char.ofNat 8)
  else if c = 'f' then some (Char.ofNat 12)
  else if c = 'n' then some '\n'
  else if c = 'r' then some '\r'
  else if c = 't' then some '\t'
  else none

/-- Parse the body of a JSON string after the opening quote, returning the
decoded characters and the input after the closing quote.  Escapes are
interpreted; `\uXXXX` surrogate pairs are combined, an unpaired surrogate
decodes to U+FFFD; an unescaped control character or an unterminated
string is a parse error, as in `JSON.parse`. -/
def parseStringBody : Nat → List Char → Option (List Char × List Char)
  | 0, _ => none
  | Nat.succ _, [] => none
  | Nat.succ fuel, c :: cs =>
    if c = '"' then some ([], cs)
    else if c = '\\' then
      match cs with
      | [] => none
      | e :: cs2 =>
        if e = 'u' then
          match cs2 with
        | h1 :: h2 :: h3 :: h4 :: cs3 =>
            match hexVal h1, hexVal h2, hexVal h3, hexVal h4 with
            | some a, some b, some c2, some d =>
              let code := a * 4096 + b * 256 + c2 * 16 + d
              if 0xD800 ≤ code ∧ code ≤ 0xDBFF then
                match cs3 with
                | '\\' :: 'u' :: g1 :: g2 :: g3 :: g4 :: cs4 =>
                  match hexVal g1, hexVal g2, hexVal g3, hexVal g4 with
                  | some a2, some b2, some c3, some d2 =>
                    let lo := a2 * 4096 + b2 * 256 + c3 * 16 + d2
                    if 0xDC00 ≤ lo ∧ lo ≤ 0xDFFF then
                      match parseStringBody fuel cs4 with
                      | some (s, rest) =>
                        some (Char.ofNat
                          (0x10000 + (code - 0xD800) * 1024 + (lo - 0xDC00)) :: s, rest)
                      | none => none
                    else
                      match parseStringBody fuel cs3 with
                      | some (s, rest) => some (Char.ofNat 0xFFFD :: s, rest)
                      | none => none
                  | _, _, _, _ =>
                    match parseStringBody fuel cs3 with
                    | some (s, rest) => some (Char.ofNat 0xFFFD :: s, rest)
                    | none => none
                | _ =>
                  match parseStringBody fuel cs3 with
                  | some (s, rest) => some (Char.ofNat 0xFFFD :: s, rest)
                  | none => none
              else if 0xDC00 ≤ code ∧ code ≤ 0xDFFF then
                match parseStringBody fuel cs3 with
                | some (s, rest) => some (Char.ofNat 0xFFFD :: s, rest)
                | none => none
              else
                match parseStringBody fuel cs3 with
                | some (s, rest) => some (Char.ofNat code :: s, rest)
                | none => none
            | _, _, _, _ => none
          | _ => none
        else
          match escChar e with
          | some c2 =>
            match parseStringBody fuel cs2 with
            | some (s, rest) => some (c2 :: s, rest)
            | none => none
          | none => none
    else if c.toNat < 32 then none
    else
      match parseStringBody fuel cs with
      | some (s, rest) => some (c :: s, rest)
      | none => none

def digitVal (c : Char) : Option Nat :=
  if '0' ≤ c ∧ c ≤ '9' then some (c.toNat - 48) else none

def takeDigits : List Char → List Nat × List Char
  | [] => ([], [])
  | c :: cs =>
    match digitVal c with
    | some d =>
      let p := takeDigits cs
      (d :: p.1, p.2)
    | none => ([], c :: cs)

def digitsToNat (ds : List Nat) : Nat :=
  ds.foldl (fun a d => a * 10 + d) 0

/-- Parse a JSON numeric literal (grammar `-?(0|[1-9][0-9]*)(.[0-9]+)?
([eE][+-]?[0-9]+)?`).  The result records the exact integer value of the
literal when it has one. -/
def parseNumber (cs : List Char) : Option (Json × List Char) :=
  let (neg, cs1) :=
    match cs with
    | '-' :: rest => (true, rest)
    | _ => (false, cs)
  match takeDigits cs1 with
  | ([], _) => none
  | (d :: ds, rest1) =>
    if d = 0 ∧ ds ≠ [] then none
    else
      let intDigits := d :: ds
      let (fracDigits, rest2) :=
        match rest1 with
        | '.' :: rest => takeDigits rest
        | _ => ([], rest1)
      let fracOk : Bool :=
        match rest1 with
        | '.' :: _ => fracDigits ≠ []
        | _ => true
      let (expOk, expVal, rest3) :=
        match rest2 with
        | c :: rest =>
          if c = 'e' ∨ c = 'E' then
            let (esign, restE) :=
              match rest with
              | '+' :: r => ((1 : Int), r)
              | '-' :: r => ((-1 : Int), r)
              | _ => ((1 : Int), rest)
            match takeDigits restE with
            | ([], _) => (false, (0 : Int), rest2)
            | (eds, restD) => (true, esign * (digitsToNat eds : Int), restD)
          else (true, (0 : Int), rest2)
        | [] => (true, (0 : Int), rest2)
      if fracOk ∧ expOk then
        let mantissa := digitsToNat (intDigits ++ fracDigits)
        let sgn : Int := if neg then -1 else 1
        let t : Int := expVal - fracDigits.length
        let intVal : Option Int :=
          if 0 ≤ t then some (sgn * mantissa * (10 : Int) ^ t.toNat)
          else if mantissa % 10 ^ (-t).toNat = 0 then
            some (sgn * ((mantissa : Int) / (10 : Int) ^ (-t).toNat))
          else none
        some (.num intVal, rest3)
      else none

mutual

/-- Parse one JSON value (fuel-indexed; the callers supply fuel larger than
the input length, which the grammar can never exhaust). -/
def parseValue : Nat → List Char → Option (Json × List Char)
  | 0, _ => none
  | Nat.succ fuel, cs =>
    match skipWs cs with
    | [] => none
    | c :: cs1 =>
      if c = '"' then
        match parseStringBody (cs1.length + 1) cs1 with
        | some (s, rest) => some (.str (String.mk s), rest)
        | none => none
      else if c = Char.ofNat 123 then
        match parseMembers fuel cs1 with
        | some (fs, rest) => some (.obj fs, rest)
        | none => none
      else if c = '[' then
        match parseElems fuel cs1 with
        | some (es, rest) => some (.arr es, rest)
        | none => none
      else if c = 't' then
        match cs1 with
        | 'r' :: 'u' :: 'e' :: rest => some (.bool true, rest)
        | _ => none
      else if c = 'f' then
        match cs1 with
        | 'a' :: 'l' :: 's' :: 'e' :: rest => some (.bool false, rest)
        | _ => none
      else if c = 'n' then
        match cs1 with
        | 'u' :: 'l' :: 'l' :: rest => some (.null, rest)
        | _ => none
      else if c = '-' ∨ c.isDigit then parseNumber (c :: cs1)
      else none

/-- Parse the members of a JSON object, starting right after the opening
brace, through the closing brace. -/
def parseMembers : Nat → List Char → Option (List (String × Json) × List Char)
  | 0, _ => none
  | Nat.succ fuel, cs =>
    match skipWs cs with
    | [] => none
    | c :: cs1 =>
      if c = Char.ofNat 125 then some ([], cs1)
      else if c = '"' then
        match parseStringBody (cs1.length + 1) cs1 with
        | some (k, rest1) =>
          match skipWs rest1 with
          | ':' :: rest2 =>
            match parseValue fuel rest2 with
            | some (v, rest3) =>
              match skipWs rest3 with
              | ',' :: rest4 =>
                match parseMembersAfterComma fuel rest4 with
                | some (fs, rest5) => some ((String.mk k, v) :: fs, rest5)
                | none => none
              | c2 :: rest4 =>
                if c2 = Char.ofNat 125 then some ([(String.mk k, v)], rest4)
                else none
              | [] => none
            | none => none
          | _ => none
        | none => none
      else none

/-- Parse the members of a JSON object after a comma (a member is now
mandatory: JSON forbids trailing commas). -/
def parseMembersAfterComma :
    Nat → List Char → Option (List (String × Json) × List Char)
  | 0, _ => none
  | Nat.succ fuel, cs =>
    match skipWs cs with
    | '"' :: cs1 =>
      match parseStringBody (cs1.length + 1) cs1 with
      | some (k, rest1) =>
        match skipWs rest1 with
        | ':' :: rest2 =>
          match parseValue fuel rest2 with
          | some (v, rest3) =>
            match skipWs rest3 with
            | ',' :: rest4 =>
              match parseMembersAfterComma fuel rest4 with
              | some (fs, rest5) => some ((String.mk k, v) :: fs, rest5)
              | none => none
            | c2 :: rest4 =>
              if c2 = Char.ofNat 125 then some ([(String.mk k, v)], rest4)
              else none
            | [] => none
          | none => none
        | _ => none
      | none => none
    | _ => none

/-- Parse the elements of a JSON array, starting right after the opening
bracket, through the closing bracket. -/
def parseElems : Nat → List Char → Option (List Json × List Char)
  | 0, _ => none
  | Nat.succ fuel, cs =>
    match skipWs cs with
    | ']' :: cs1 => some ([], cs1)
    | _ =>
      match parseValue fuel cs with
      | some (v, rest1) =>
        match skipWs rest1 with
        | ',' :: rest2 =>
          match parseElems fuel rest2 with
          | some (vs, rest3) => some (v :: vs, rest3)
          | none => none
        | ']' :: rest2 => some ([v], rest2)
        | _ => none
      | none => none

end

/-- The model of `JSON.parse`: a single JSON value surrounded by optional
whitespace, `none` on any syntax error. -/
def jsonParse (s : List Char) : Option Json :=
  match parseValue (s.length + 1) s with
  | some (j, rest) => if skipWs rest = [] then some j else none
  | none => none

/-- Property lookup on a parsed JSON object: with duplicate keys,
`JSON.parse` keeps the last occurrence. -/
def lookupLast (fields : List (String × Json)) (k : String) : Option Json :=
  fields.foldl (fun acc p => if p.1 = k then some p.2 else acc) none

def Json.field : Json → String → Option Json
  | .obj fs, k => lookupLast fs k
  | _, _ => none

/-- Reading a property that the `StreamEvent` cast types as a string:
anything that is absent or not a string behaves as absent. -/
def asStr : Option Json → Option String
  | some (.str s) => some s
  | _ => none

/-- Reading the `response_id` property, typed as a number; the reducer only
ever compares it with the integer buffer ids. -/
def asIntNum : Option Json → Option Int
  | some (.num (some n)) => some n
  | _ => none

/-- The unchecked cast `JSON.parse(...) as StreamEvent`: field access on
the parsed value. -/
def eventOfJson (j : Json) : StreamEvent :=
  { type := asStr (j.field "type"), trace_id := asStr (j.field "trace_id"),
    response_id := asIntNum (j.field "response_id"),
    content := asStr (j.field "content"), error := asStr (j.field "error"),
    model := asStr (j.field "model") }

/-- The SSE field marker `"data: "` that `streamDualResponses` tests with
`line.startsWith`. -/
def dataMarker : List Char := ['d', 'a', 't', 'a', ':', ' ']

/-- Processing of one complete line by the decoder loop: lines without the
marker are ignored, a marked line's payload (`line.slice(6)`) is parsed,
and a payload that fails to parse is logged and skipped. -/
def lineEvent (l : List Char) : Option StreamEvent :=
  if dataMarker.isPrefixOf l then
    match jsonParse (l.drop 6) with
    | some j => some (eventOfJson j)
    | none => none
  else none

/-- The events produced from a sequence of complete lines, in order. -/
def linesToEvents (ls : List (List Char)) : List StreamEvent :=
  ls.filterMap lineEvent

/-- The replacement character U+FFFD that a non-fatal `TextDecoder`
substitutes for invalid input. -/
def repl : Char := Char.ofNat 0xFFFD

def isContByte (b : Nat) : Bool := 0x80 ≤ b ∧ b ≤ 0xBF

/-- Lower bound of the second byte of a 3-byte sequence (WHATWG). -/
def lo3 (b : Nat) : Nat := if b = 0xE0 then 0xA0 else 0x80

/-- Upper bound of the second byte of a 3-byte sequence (WHATWG). -/
def hi3 (b : Nat) : Nat := if b = 0xED then 0x9F else 0xBF

/-- Lower bound of the second byte of a 4-byte sequence (WHATWG). -/
def lo4 (b : Nat) : Nat := if b = 0xF0 then 0x90 else 0x80

/-- Upper bound of the second byte of a 4-byte sequence (WHATWG). -/
def hi4 (b : Nat) : Nat := if b = 0xF4 then 0x8F else 0xBF

def char2 (b b2 : Nat) : Char := Char.ofNat ((b - 0xC0) * 64 + (b2 - 0x80))

def char3 (b b2 b3 : Nat) : Char :=
  Char.ofNat ((b - 0xE0) * 4096 + (b2 - 0x80) * 64 + (b3 - 0x80))

def char4 (b b2 b3 b4 : Nat) : Char :=
  Char.ofNat ((b - 0xF0) * 262144 + (b2 - 0x80) * 4096 + (b3 - 0x80) * 64
    + (b4 - 0x80))

/-- Result of one step of the incremental UTF-8 decoder: either the input
ran out inside a valid but incomplete sequence (the bytes are carried to
the next chunk), or one character was produced. -/
inductive Utf8Step where
  | done (carry : List Nat)
  | emit (c : Char) (rest : List Nat)

/-- Continuation of a 2-byte sequence whose lead byte was `b`. -/
def step2 (b : Nat) : List Nat → Utf8Step
  | [] => .done [b]
  | b2 :: r2 =>
    if isContByte b2 then .emit (char2 b b2) r2 else .emit repl (b2 :: r2)

/-- Third byte of a 3-byte sequence `b b2 _`. -/
def step3c (b b2 : Nat) : List Nat → Utf8Step
  | [] => .done [b, b2]
  | b3 :: r3 =>
    if isContByte b3 then .emit (char3 b b2 b3) r3 else .emit repl (b3 :: r3)

/-- Continuation of a 3-byte sequence whose lead byte was `b`. -/
def step3 (b : Nat) : List Nat → Utf8Step
  | [] => .done [b]
  | b2 :: r2 =>
    if lo3 b ≤ b2 ∧ b2 ≤ hi3 b then step3c b b2 r2 else .emit repl (b2 :: r2)

/-- Fourth byte of a 4-byte sequence `b b2 b3 _`. -/
def step4d (b b2 b3 : Nat) : List Nat → Utf8Step
  | [] => .done [b, b2, b3]
  | b4 :: r4 =>
    if isContByte b4 then .emit (char4 b b2 b3 b4) r4
    else .emit repl (b4 :: r4)

/-- Third byte of a 4-byte sequence `b b2 _ _`. -/
def step4c (b b2 : Nat) : List Nat → Utf8Step
  | [] => .done [b, b2]
  | b3 :: r3 =>
    if isContByte b3 then step4d b b2 b3 r3 else .emit repl (b3 :: r3)

/-- Continuation of a 4-byte sequence whose lead byte was `b`. -/
def step4 (b : Nat) : List Nat → Utf8Step
  | [] => .done [b]
  | b2 :: r2 =>
    if lo4 b ≤ b2 ∧ b2 ≤ hi4 b then step4c b b2 r2 else .emit repl (b2 :: r2)

/-- One step of the WHATWG UTF-8 decoder (as used by `TextDecoder` with
`stream: true`): decode one scalar value, substitute U+FFFD on invalid
input resuming at the offending byte, or report the whole input as
carry-over when it is a proper prefix of a multi-byte sequence. -/
def utf8Step : List Nat → Utf8Step
  | [] => .done []
  | b :: rest =>
    if b ≤ 0x7F then .emit (Char.ofNat b) rest
    else if b < 0xC2 then .emit repl rest
    else if b ≤ 0xDF then step2 b rest
    else if b ≤ 0xEF then step3 b rest
    else if b ≤ 0xF4 then step4 b rest
    else .emit repl rest

theorem step2_emit_append {b : Nat} {r : List Nat} {c : Char} {rest : List Nat}
    (ys : List Nat) (h : step2 b r = .emit c rest) :
    step2 b (r ++ ys) = .emit c (rest ++ ys) := by
  cases r with
  | nil => exact Utf8Step.noConfusion h
  | cons b2 r2 =>
    simp only [step2, List.cons_append] at h ⊢
    split_ifs at h ⊢ with hc
    · injection h with h1 h2
      subst h1; subst h2
      rfl
    · injection h with h1 h2
      subst h1; subst h2
      rfl

theorem step3c_emit_append {b b2 : Nat} {r : List Nat} {c : Char}
    {rest : List Nat} (ys : List Nat) (h : step3c b b2 r = .emit c rest) :
    step3c b b2 (r ++ ys) = .emit c (rest ++ ys) := by
  cases r with
  | nil => exact Utf8Step.noConfusion h
  | cons b3 r3 =>
    simp only [step3c, List.cons_append] at h ⊢
    split_ifs at h ⊢ with hc
    · injection h with h1 h2
      subst h1; subst h2
      rfl
    · injection h with h1 h2
      subst h1; subst h2
      rfl

theorem step3_emit_append {b : Nat} {r : List Nat} {c : Char} {rest : List Nat}
    (ys : List Nat) (h : step3 b r = .emit c rest) :
    step3 b (r ++ ys) = .emit c (rest ++ ys) := by
  cases r with
  | nil => exact Utf8Step.noConfusion h
  | cons b2 r2 =>
    simp only [step3, List.cons_append] at h ⊢
    split_ifs at h ⊢ with hc
    · exact step3c_emit_append ys h
    · injection h with h1 h2
      subst h1; subst h2
      rfl

theorem step4d_emit_append {b b2 b3 : Nat} {r : List Nat} {c : Char}
    {rest : List Nat} (ys : List Nat) (h : step4d b b2 b3 r = .emit c rest) :
    step4d b b2 b3 (r ++ ys) = .emit c (rest ++ ys) := by
  cases r with
  | nil => exact Utf8Step.noConfusion h
  | cons b4 r4 =>
    simp only [step4d, List.cons_append] at h ⊢
    split_ifs at h ⊢ with hc
    · injection h with h1 h2
      subst h1; subst h2
      rfl
    · injection h with h1 h2
      subst h1; subst h2
      rfl

theorem step4c_emit_append {b b2 : Nat} {r : List Nat} {c : Char}
    {rest : List Nat} (ys : List Nat) (h : step4c b b2 r = .emit c rest) :
    step4c b b2 (r ++ ys) = .emit c (rest ++ ys) := by
  cases r with
  | nil => exact Utf8Step.noConfusion h
  | cons b3 r3 =>
    simp only [step4c, List.cons_append] at h ⊢
    split_ifs at h ⊢ with hc
    · exact step4d_emit_append ys h
    · injection h with h1 h2
      subst h1; subst h2
      rfl

theorem step4_emit_append {b : Nat} {r : List Nat} {c : Char} {rest : List Nat}
    (ys : List Nat) (h : step4 b r = .emit c rest) :
    step4 b (r ++ ys) = .emit c (rest ++ ys) := by
  cases r with
  | nil => exact Utf8Step.noConfusion h
  | cons b2 r2 =>
    simp only [step4, List.cons_append] at h ⊢
    split_ifs at h ⊢ with hc
    · exact step4c_emit_append ys h
    · injection h with h1 h2
      subst h1; subst h2
      rfl

/-- An emitting decoder step is unaffected by extending the input. -/
theorem utf8Step_emit_append {l : List Nat} {c : Char} {rest : List Nat}
    (ys : List Nat) (h : utf8Step l = .emit c rest) :
    utf8Step (l ++ ys) = .emit c (rest ++ ys) := by
  cases l with
  | nil => exact Utf8Step.noConfusion h
  | cons b r =>
    simp only [utf8Step, List.cons_append] at h ⊢
    split_ifs at h ⊢
    · injection h with h1 h2; subst h1; subst h2; rfl
    · injection h with h1 h2; subst h1; subst h2; rfl
    · exact step2_emit_append ys h
    · exact step3_emit_append ys h
    · exact step4_emit_append ys h
    · injection h with h1 h2; subst h1; subst h2; rfl

theorem step2_done_eq {b : Nat} {r c : List Nat} (h : step2 b r = .done c) :
    c = b :: r := by
  cases r with
  | nil => injection h with h1; subst h1; rfl
  | cons b2 r2 =>
    simp only [step2] at h
    split_ifs at h

theorem step3c_done_eq {b b2 : Nat} {r c : List Nat}
    (h : step3c b b2 r = .done c) : c = b :: b2 :: r := by
  cases r with
  | nil => injection h with h1; subst h1; rfl
  | cons b3 r3 =>
    simp only [step3c] at h
    split_ifs at h

theorem step3_done_eq {b : Nat} {r c : List Nat} (h : step3 b r = .done c) :
    c = b :: r := by
  cases r with
  | nil => injection h with h1; subst h1; rfl
  | cons b2 r2 =>
    simp only [step3] at h
    split_ifs at h with hc
    exact step3c_done_eq h

theorem step4d_done_eq {b b2 b3 : Nat} {r c : List Nat}
    (h : step4d b b2 b3 r = .done c) : c = b :: b2 :: b3 :: r := by
  cases r with
  | nil => injection h with h1; subst h1; rfl
  | cons b4 r4 =>
    simp only [step4d] at h
    split_ifs at h

theorem step4c_done_eq {b b2 : Nat} {r c : List Nat}
    (h : step4c b b2 r = .done c) : c = b :: b2 :: r := by
  cases r with
  | nil => injection h with h1; subst h1; rfl
  | cons b3 r3 =>
    simp only [step4c] at h
    split_ifs at h with hc
    exact step4d_done_eq h

theorem step4_done_eq {b : Nat} {r c : List Nat} (h : step4 b r = .done c) :
    c = b :: r := by
  cases r with
  | nil => injection h with h1; subst h1; rfl
  | cons b2 r2 =>
    simp only [step4] at h
    split_ifs at h with hc
    exact step4c_done_eq h

/-- A carry-over is always the entire remaining input. -/
theorem utf8Step_done_eq : ∀ {l c : List Nat}, utf8Step l = .done c → c = l := by
  intro l c h
  cases l with
  | nil => injection h with h1; subst h1; rfl
  | cons b r =>
    simp only [utf8Step] at h
    split_ifs at h
    · exact step2_done_eq h
    · exact step3_done_eq h
    · exact step4_done_eq h

theorem step2_emit_le {b : Nat} {r : List Nat} {c : Char} {rest : List Nat}
    (h : step2 b r = .emit c rest) : rest.length ≤ r.length := by
  cases r with
  | nil => exact Utf8Step.noConfusion h
  | cons b2 r2 =>
    simp only [step2] at h
    split_ifs at h
    all_goals
      injection h with h1 h2
      subst h2
      simp only [List.length_cons]
      omega

theorem step3c_emit_le {b b2 : Nat} {r : List Nat} {c : Char}
    {rest : List Nat} (h : step3c b b2 r = .emit c rest) :
    rest.length ≤ r.length := by
  cases r with
  | nil => exact Utf8Step.noConfusion h
  | cons b3 r3 =>
    simp only [step3c] at h
    split_ifs at h
    all_goals
      injection h with h1 h2
      subst h2
      simp only [List.length_cons]
      omega

theorem step3_emit_le {b : Nat} {r : List Nat} {c : Char} {rest : List Nat}
    (h : step3 b r = .emit c rest) : rest.length ≤ r.length := by
  cases r with
  | nil => exact Utf8Step.noConfusion h
  | cons b2 r2 =>
    simp only [step3] at h
    split_ifs at h with hc
    · have := step3c_emit_le h
      simp only [List.length_cons]
      omega
    · injection h with h1 h2
      subst h2
      simp only [List.length_cons]
      omega

theorem step4d_emit_le {b b2 b3 : Nat} {r : List Nat} {c : Char}
    {rest : List Nat} (h : step4d b b2 b3 r = .emit c rest) :
    rest.length ≤ r.length := by
  cases r with
  | nil => exact Utf8Step.noConfusion h
  | cons b4 r4 =>
    simp only [step4d] at h
    split_ifs at h
    all_goals
      injection h with h1 h2
      subst h2
      simp only [List.length_cons]
      omega

theorem step4c_emit_le {b b2 : Nat} {r : List Nat} {c : Char}
    {rest : List Nat} (h : step4c b b2 r = .emit c rest) :
    rest.length ≤ r.length := by
  cases r with
  | nil => exact Utf8Step.noConfusion h
  | cons b3 r3 =>
    simp only [step4c] at h
    split_ifs at h with hc
    · have := step4d_emit_le h
      simp only [List.length_cons]
      omega
    · injection h with h1 h2
      subst h2
      simp only [List.length_cons]
      omega

theorem step4_emit_le {b : Nat} {r : List Nat} {c : Char} {rest : List Nat}
    (h : step4 b r = .emit c rest) : rest.length ≤ r.length := by
  cases r with
  | nil => exact Utf8Step.noConfusion h
  | cons b2 r2 =>
    simp only [step4] at h
    split_ifs at h with hc
    · have := step4c_emit_le h
      simp only [List.length_cons]
      omega
    · injection h with h1 h2
      subst h2
      simp only [List.length_cons]
      omega

/-- An emitting decoder step strictly consumes input. -/
theorem utf8Step_emit_length : ∀ {l : List Nat} {c : Char} {rest : List Nat},
    utf8Step l = .emit c rest → rest.length < l.length := by
  intro l c rest h
  cases l with
  | nil => exact Utf8Step.noConfusion h
  | cons b r =>
    simp only [utf8Step] at h
    split_ifs at h
    · injection h with h1 h2
      subst h2
      simp only [List.length_cons]
      omega
    · injection h with h1 h2
      subst h2
      simp only [List.length_cons]
      omega
    · have := step2_emit_le h
      simp only [List.length_cons]
      omega
    · have := step3_emit_le h
      simp only [List.length_cons]
      omega
    · have := step4_emit_le h
      simp only [List.length_cons]
      omega
    · injection h with h1 h2
      subst h2
      simp only [List.length_cons]
      omega

/-- Run the UTF-8 decoder to the end of the available input (fuel-indexed;
any fuel at least the input length gives the same result).  Returns the
decoded characters and the carried-over incomplete trailing sequence. -/
def utf8DecodeFuel : Nat → List Nat → List Char × List Nat
  | 0, l => ([], l)
  | Nat.succ fuel, l =>
    match utf8Step l with
    | .done c => ([], c)
    | .emit ch rest =>
      let p := utf8DecodeFuel fuel rest
      (ch :: p.1, p.2)

/-- The model of `decoder.decode(value, { stream: true })` applied to the
internal carry concatenated with the chunk: decoded text plus new carry. -/
def utf8DecodeAll (l : List Nat) : List Char × List Nat :=
  utf8DecodeFuel l.length l

theorem utf8DecodeFuel_congr : ∀ (f1 f2 : Nat) (l : List Nat),
    l.length ≤ f1 → l.length ≤ f2 →
    utf8DecodeFuel f1 l = utf8DecodeFuel f2 l := by
  intro f1
  induction f1 with
  | zero =>
    intro f2 l h1 h2
    have : l = [] := List.length_eq_zero.mp (Nat.le_zero.mp h1)
    subst this
    cases f2 with
    | zero => rfl
    | succ f => rfl
  | succ f1 ih =>
    intro f2 l h1 h2
    cases f2 with
    | zero =>
      have : l = [] := List.length_eq_zero.mp (Nat.le_zero.mp h2)
      subst this
      rfl
    | succ f2 =>
      simp only [utf8DecodeFuel]
      cases hs : utf8Step l with
      | done c => rfl
      | emit ch rest =>
        have hlen := utf8Step_emit_length hs
        have e1 : rest.length ≤ f1 := by omega
        have e2 : rest.length ≤ f2 := by omega
        simp only [ih f2 rest e1 e2]

theorem utf8DecodeFuel_eq {fuel : Nat} {l : List Nat} (h : l.length ≤ fuel) :
    utf8DecodeFuel fuel l = utf8DecodeAll l :=
  utf8DecodeFuel_congr fuel l.length l h (Nat.le_refl _)

/-- One-step unfolding of `utf8DecodeAll`. -/
theorem utf8DecodeAll_eq_step (l : List Nat) :
    utf8DecodeAll l =
      match utf8Step l with
      | .done c => ([], c)
      | .emit ch rest => ((ch :: (utf8DecodeAll rest).1), (utf8DecodeAll rest).2) := by
  cases l with
  | nil => rfl
  | cons b bs =>
    show utf8DecodeFuel (bs.length + 1) (b :: bs) = _
    simp only [utf8DecodeFuel]
    cases hs : utf8Step (b :: bs) with
    | done c => rfl
    | emit ch rest =>
      have hlen := utf8Step_emit_length hs
      have : rest.length ≤ bs.length := by
        simp only [List.length_cons] at hlen
        omega
      simp only [utf8DecodeFuel_eq this]

/-- Decoding a concatenation: decode the first part, then decode its carry
prepended to the second part.  This is exactly what makes the incremental
`TextDecoder` chunking-invariant. -/
theorem utf8DecodeAll_append (xs ys : List Nat) :
    utf8DecodeAll (xs ++ ys)
      = ((utf8DecodeAll xs).1 ++ (utf8DecodeAll ((utf8DecodeAll xs).2 ++ ys)).1,
         (utf8DecodeAll ((utf8DecodeAll xs).2 ++ ys)).2) := by
  have main : ∀ (fuel : Nat) (xs : List Nat), xs.length ≤ fuel →
      utf8DecodeAll (xs ++ ys)
        = ((utf8DecodeAll xs).1 ++ (utf8DecodeAll ((utf8DecodeAll xs).2 ++ ys)).1,
           (utf8DecodeAll ((utf8DecodeAll xs).2 ++ ys)).2) := by
    intro fuel
    induction fuel with
    | zero =>
      intro xs h
      have : xs = [] := List.length_eq_zero.mp (Nat.le_zero.mp h)
      subst this
      simp only [List.nil_append]
      rfl
    | succ fuel ih =>
      intro xs h
      cases hs : utf8Step xs with
      | done c =>
        have hc : c = xs := utf8Step_done_eq hs
        subst hc
        have hxs : utf8DecodeAll c = ([], c) := by
          rw [utf8DecodeAll_eq_step, hs]
        rw [hxs]
        simp only [List.nil_append]
      | emit ch rest =>
        have hlen := utf8Step_emit_length hs
        have hxs : utf8DecodeAll xs
            = (ch :: (utf8DecodeAll rest).1, (utf8DecodeAll rest).2) := by
          rw [utf8DecodeAll_eq_step, hs]
        have happ : utf8Step (xs ++ ys) = .emit ch (rest ++ ys) :=
          utf8Step_emit_append ys hs
        have hall : utf8DecodeAll (xs ++ ys)
            = (ch :: (utf8DecodeAll (rest ++ ys)).1, (utf8DecodeAll (rest ++ ys)).2) := by
          rw [utf8DecodeAll_eq_step, happ]
        have hrest : rest.length ≤ fuel := by omega
        rw [hall, ih rest hrest, hxs]
        simp only [List.cons_append]
  exact main xs.length xs (Nat.le_refl _)

/-- The effect of `const lines = buffer.split('\n'); buffer = lines.pop()`:
the newline-terminated complete lines, and the trailing fragment retained
as the new line buffer. -/
def splitText : List Char → List (List Char) × List Char
  | [] => ([], [])
  | c :: cs =>
    let p := splitText cs
    if c = '\n' then ([] :: p.1, p.2)
    else
      match p.1 with
      | [] => ([], c :: p.2)
      | l :: ls => ((c :: l) :: ls, p.2)

theorem splitText_no_newline : ∀ {cs : List Char}, '\n' ∉ cs →
    splitText cs = ([], cs) := by
  intro cs h
  induction cs with
  | nil => rfl
  | cons c cs ih =>
    have hc : c ≠ '\n' := fun hx => h (hx ▸ List.mem_cons_self c cs)
    have hcs : '\n' ∉ cs := fun hx => h (List.mem_cons_of_mem c hx)
    simp only [splitText, ih hcs, if_neg hc]

theorem splitText_tail_no_newline : ∀ (cs : List Char),
    '\n' ∉ (splitText cs).2 := by
  intro cs
  induction cs with
  | nil => simp [splitText]
  | cons c cs ih =>
    simp only [splitText]
    split_ifs with hc
    · exact ih
    · cases hp : (splitText cs).1 with
      | nil =>
        simp only
        intro hmem
        rcases List.mem_cons.mp hmem with h | h
        · exact hc h.symm
        · exact ih h
      | cons l ls => exact ih

theorem splitText_cons_newline (cs : List Char) :
    splitText ('\n' :: cs) = ([] :: (splitText cs).1, (splitText cs).2) := by
  simp [splitText]

theorem splitText_cons_other_nil {c : Char} {cs : List Char} (hc : c ≠ '\n')
    (hnil : (splitText cs).1 = []) :
    splitText (c :: cs) = ([], c :: (splitText cs).2) := by
  simp only [splitText, if_neg hc, hnil]

theorem splitText_cons_other_cons {c : Char} {cs : List Char}
    {l : List Char} {ls : List (List Char)} (hc : c ≠ '\n')
    (h : (splitText cs).1 = l :: ls) :
    splitText (c :: cs) = ((c :: l) :: ls, (splitText cs).2) := by
  simp only [splitText, if_neg hc, h]

/-- Splitting a concatenation: the first part's complete lines come first,
and its trailing fragment is prepended to the second part. -/
theorem splitText_append (a b : List Char) :
    splitText (a ++ b)
      = ((splitText a).1 ++ (splitText ((splitText a).2 ++ b)).1,
         (splitText ((splitText a).2 ++ b)).2) := by
  induction a with
  | nil => simp only [List.nil_append, splitText, List.nil_append]
  | cons c cs ih =>
    by_cases hc : c = '\n'
    · subst hc
      rw [List.cons_append, splitText_cons_newline, ih]
      simp only [splitText_cons_newline, List.cons_append]
    · cases hp : (splitText cs).1 with
      | nil =>
        have ha : splitText (c :: cs) = ([], c :: (splitText cs).2) :=
          splitText_cons_other_nil hc hp
        have hq : (splitText (cs ++ b)).1 = (splitText ((splitText cs).2 ++ b)).1
            ∧ (splitText (cs ++ b)).2 = (splitText ((splitText cs).2 ++ b)).2 := by
          rw [ih, hp]
          exact ⟨List.nil_append _, rfl⟩
        rw [ha]
        simp only [List.nil_append, List.cons_append]
        cases hx : (splitText ((splitText cs).2 ++ b)).1 with
        | nil =>
          rw [splitText_cons_other_nil hc (hq.1.trans hx),
            splitText_cons_other_nil hc hx]
          rw [hq.2]
        | cons l ls =>
          rw [splitText_cons_other_cons hc (hq.1.trans hx),
            splitText_cons_other_cons hc hx]
          rw [hq.2]
      | cons l ls =>
        have ha : splitText (c :: cs) = ((c :: l) :: ls, (splitText cs).2) :=
          splitText_cons_other_cons hc hp
        have hq : (splitText (cs ++ b)).1
            = l :: (ls ++ (splitText ((splitText cs).2 ++ b)).1) := by
          rw [ih, hp]
          rfl
        rw [List.cons_append, splitText_cons_other_cons hc hq, ha]
        rw [ih, hp]
        simp only [List.cons_append]

/-- The loop state of `streamDualResponses`: the `TextDecoder`'s pending
undecoded trailing bytes and the `buffer` variable holding the trailing
incomplete line. -/
structure DecState where
  byteCarry : List Nat
  lineCarry : List Char

/-- One iteration of the read loop: decode the chunk (with byte carry),
append to the line buffer, split off the complete lines, keep the tail,
and emit the events of the complete lines. -/
def sseChunk (st : DecState) (k : List Nat) : List StreamEvent × DecState :=
  let p := utf8DecodeAll (st.byteCarry ++ k)
  let q := splitText (st.lineCarry ++ p.1)
  (linesToEvents q.1, ⟨p.2, q.2⟩)

/-- The whole read loop over the chunk sequence; at end-of-stream the loop
breaks, discarding both carries. -/
def sseRun : DecState → List (List Nat) → List StreamEvent
  | _, [] => []
  | st, k :: ks =>
    let r := sseChunk st k
    r.1 ++ sseRun r.2 ks

/-- The event sequence that `streamDualResponses` yields for a byte stream
delivered as the given chunks. -/
def sseEvents (chunks : List (List Nat)) : List StreamEvent :=
  sseRun ⟨[], []⟩ chunks

/-- The text decoded by the loop, chunk by chunk. -/
def textRun : List Nat → List (List Nat) → List Char
  | _, [] => []
  | bc, k :: ks =>
    let p := utf8DecodeAll (bc ++ k)
    p.1 ++ textRun p.2 ks

/-- The decoder's final carry is itself stuck: stepping it again still
reports an incomplete sequence. -/
theorem utf8DecodeAll_carry_done (l : List Nat) :
    utf8Step (utf8DecodeAll l).2 = .done (utf8DecodeAll l).2 := by
  have main : ∀ (fuel : Nat) (l : List Nat), l.length ≤ fuel →
      utf8Step (utf8DecodeAll l).2 = .done (utf8DecodeAll l).2 := by
    intro fuel
    induction fuel with
    | zero =>
      intro l h
      have : l = [] := List.length_eq_zero.mp (Nat.le_zero.mp h)
      subst this
      rfl
    | succ fuel ih =>
      intro l h
      cases hs : utf8Step l with
      | done c =>
        have hc : c = l := utf8Step_done_eq hs
        have : utf8DecodeAll l = ([], c) := by rw [utf8DecodeAll_eq_step, hs]
        rw [this]
        subst hc
        exact hs
      | emit ch rest =>
        have hlen := utf8Step_emit_length hs
        have : utf8DecodeAll l
            = (ch :: (utf8DecodeAll rest).1, (utf8DecodeAll rest).2) := by
          rw [utf8DecodeAll_eq_step, hs]
        rw [this]
        exact ih rest (by omega)
  exact main l.length l (Nat.le_refl _)

/-- Provided the byte carry is a stuck incomplete sequence (as it always is
in a run of the loop), the chunkwise decoded text is the text decoded from
the whole remaining byte stream. -/
theorem textRun_flatten : ∀ (ks : List (List Nat)) (bc : List Nat),
    utf8Step bc = .done bc →
    textRun bc ks = (utf8DecodeAll (bc ++ ks.flatten)).1 := by
  intro ks
  induction ks with
  | nil =>
    intro bc hbc
    have : utf8DecodeAll bc = ([], bc) := by rw [utf8DecodeAll_eq_step, hbc]
    simp only [textRun, List.flatten_nil, List.append_nil, this]
  | cons k ks ih =>
    intro bc hbc
    have hassoc : bc ++ (k :: ks).flatten = (bc ++ k) ++ ks.flatten := by
      simp only [List.flatten_cons, List.append_assoc]
    rw [hassoc, utf8DecodeAll_append (bc ++ k) ks.flatten]
    simp only [textRun]
    rw [ih _ (utf8DecodeAll_carry_done (bc ++ k))]

/-- Provided the byte carry is stuck and the line carry holds no newline
(the loop invariants), the events produced by the rest of the loop are the
events of the complete lines of the remaining decoded text. -/
theorem sseRun_eq : ∀ (ks : List (List Nat)) (bc : List Nat) (lc : List Char),
    utf8Step bc = .done bc → '\n' ∉ lc →
    sseRun ⟨bc, lc⟩ ks = linesToEvents (splitText (lc ++ textRun bc ks)).1 := by
  intro ks
  induction ks with
  | nil =>
    intro bc lc hbc hlc
    simp only [sseRun, textRun, List.append_nil, splitText_no_newline hlc]
    rfl
  | cons k ks ih =>
    intro bc lc hbc hlc
    simp only [sseRun, sseChunk, textRun]
    rw [ih _ _ (utf8DecodeAll_carry_done (bc ++ k))
      (splitText_tail_no_newline (lc ++ (utf8DecodeAll (bc ++ k)).1))]
    have hassoc : lc ++ ((utf8DecodeAll (bc ++ k)).1 ++ textRun (utf8DecodeAll (bc ++ k)).2 ks)
        = (lc ++ (utf8DecodeAll (bc ++ k)).1) ++ textRun (utf8DecodeAll (bc ++ k)).2 ks := by
      simp only [List.append_assoc]
    rw [hassoc, splitText_append (lc ++ (utf8DecodeAll (bc ++ k)).1)
      (textRun (utf8DecodeAll (bc ++ k)).2 ks)]
    simp only [linesToEvents, List.filterMap_append]

/-- The decoder loop in normal form: the events are exactly the events of
the newline-terminated lines of the text decoded from the whole byte
stream; the trailing fragment after the last newline contributes nothing. -/
theorem sseEvents_canon (chunks : List (List Nat)) :
    sseEvents chunks
      = linesToEvents (splitText (utf8DecodeAll chunks.flatten).1).1 := by
  have h := sseRun_eq chunks [] [] rfl (by simp)
  rw [sseEvents, h, textRun_flatten chunks [] rfl]
  simp only [List.nil_append]

/-- Standard UTF-8 encoding of one scalar value. -/
def utf8EncodeChar (c : Char) : List Nat :=
  let n := c.toNat
  if n < 0x80 then [n]
  else if n < 0x800 then [0xC0 + n / 64, 0x80 + n % 64]
  else if n < 0x10000 then [0xE0 + n / 4096, 0x80 + (n / 64) % 64, 0x80 + n % 64]
  else [0xF0 + n / 262144, 0x80 + (n / 4096) % 64, 0x80 + (n / 64) % 64, 0x80 + n % 64]

def utf8Encode (cs : List Char) : List Nat :=
  (cs.map utf8EncodeChar).flatten

/-- The three input lines of Scenario A, newline-terminated. -/
def scenarioAText : String :=
  "data: \x7b\"type\":\"content\",\"response_id\":1,\"content\":\"Hel\"\x7d\ndata: \x7b\"type\":\"content\",\"response_id\":1,\"content\":\"lo\"\x7d\ndata: \x7b\"type\":\"streams_complete\"\x7d\n"

/-- The events the decoder yields for the Scenario A byte stream. -/
def scenarioAEvents : List StreamEvent := sseEvents [utf8Encode scenarioAText.data]

/-- C1: Scenario A through the whole pipeline (bytes, decoder, reducer)
leaves buffer 1 with content `"Hello"` and buffer 2 with `""`, both with
`isStreaming = false`; and in general the reducer is a pointwise fold over
the buffers under which each buffer's final content is its initial content
followed by the addressed `content` fragments in exactly their stream
order. -/
theorem scenarioA_and_append_order :
    applyEvents initChatState scenarioAEvents
      = { dualResponses :=
            [ { id := 1, content := "Hello", model := "gemini-2.5-flash",
                isStreaming := false },
              { id := 2, content := "", model := "gemini-1.5-flash",
                isStreaming := false } ],
          currentTraceId := none }
    ∧ (∀ (es : List StreamEvent) (st : ChatState),
        (applyEvents st es).dualResponses = st.dualResponses.map (bufFold es))
    ∧ (∀ (es : List StreamEvent) (r : DualResponse), r.id ≠ 0 →
        (bufFold es r).content = r.content ++ strConcat (fragsFor r.id es)) :=
  ⟨by decide, fun es st => applyEvents_dualResponses es st,
    fun es r h => bufFold_content es r h⟩

/-- C1 witness: the order theorem applied to a concrete two-fragment
sequence addressed to buffer 1. -/
theorem scenarioA_and_append_order_witness :
    (bufFold
        [ { type := some "content", trace_id := none, response_id := some 1,
            content := some "Hel", error := none, model := none },
          { type := some "content", trace_id := none, response_id := some 1,
            content := some "lo", error := none, model := none } ]
        { id := 1, content := "", model := "m", isStreaming := true }).content
      = "" ++ strConcat (fragsFor 1
        [ { type := some "content", trace_id := none, response_id := some 1,
            content := some "Hel", error := none, model := none },
          { type := some "content", trace_id := none, response_id := some 1,
            content := some "lo", error := none, model := none } ]) :=
  scenarioA_and_append_order.2.2
    [ { type := some "content", trace_id := none, response_id := some 1,
        content := some "Hel", error := none, model := none },
      { type := some "content", trace_id := none, response_id := some 1,
        content := some "lo", error := none, model := none } ]
    { id := 1, content := "", model := "m", isStreaming := true }
    (by decide)

/-- A content line whose payload carries a two-byte UTF-8 character
(U+00E9). -/
def accentLine : String :=
  "data: \x7b\"type\":\"content\",\"response_id\":1,\"content\":\"é\"\x7d\n"

/-- C6: the decoder is chunking-invariant: delivering a byte stream in any
chunks yields exactly the events of the unchunked stream.  In particular
(second conjunct) splitting the two-byte character U+00E9 across a chunk
boundary still decodes it intact. -/
theorem sseEvents_chunking_invariant (chunks : List (List Nat)) :
    sseEvents chunks = sseEvents [chunks.flatten]
    ∧ sseEvents
        [ (utf8Encode accentLine.data).take 52,
          (utf8Encode accentLine.data).drop 52 ]
      = [ { type := some "content", trace_id := none, response_id := some 1,
            content := some "é", error := none, model := none } ] := by
  constructor
  · rw [sseEvents_canon chunks, sseEvents_canon [chunks.flatten]]
    simp only [List.flatten_cons, List.flatten_nil, List.append_nil]
  · decide

/-- A syntactically complete data record that is not newline-terminated. -/
def danglingRecord : String := "data: \x7b\"type\":\"streams_complete\"\x7d"

/-- C10: the decoder only ever yields events for newline-terminated lines;
a final fragment left in the carry at end-of-stream is discarded.  The
concrete conjuncts show a complete `data: ` record whose payload parses
successfully being dropped for want of a final newline, and being
processed once the newline arrives. -/
theorem eofFragmentDiscarded :
    (∀ chunks : List (List Nat),
      sseEvents chunks
        = linesToEvents (splitText (utf8DecodeAll chunks.flatten).1).1)
    ∧ (jsonParse (danglingRecord.data.drop 6)).isSome = true
    ∧ sseEvents [utf8Encode danglingRecord.data] = []
    ∧ sseEvents [utf8Encode danglingRecord.data ++ [10]]
      = [ { type := some "streams_complete", trace_id := none,
            response_id := none, content := none, error := none,
            model := none } ] :=
  ⟨fun chunks => sseEvents_canon chunks, rfl, by decide, by decide⟩

/-- C5: a marked line whose payload fails JSON parsing contributes no
event: the decoded event sequence, and hence every buffer state reached by
folding it, is the same as if the malformed line were absent. -/
theorem malformedLineSkipped (pre suf : List (List Char)) (l : List Char)
    (st : ChatState) (hmark : dataMarker.isPrefixOf l = true)
    (hbad : jsonParse (l.drop 6) = none) :
    linesToEvents (pre ++ l :: suf) = linesToEvents (pre ++ suf)
    ∧ applyEvents st (linesToEvents (pre ++ l :: suf))
        = applyEvents st (linesToEvents (pre ++ suf)) := by
  have hle : lineEvent l = none := by
    simp only [lineEvent, hmark, if_true, hbad]
  have h1 : linesToEvents (pre ++ l :: suf) = linesToEvents (pre ++ suf) := by
    simp only [linesToEvents, List.filterMap_append, List.filterMap_cons, hle]
  exact ⟨h1, by rw [h1]⟩

/-- C5 witness: a malformed JSON line between two valid lines, folded from
the initial exchange state. -/
theorem malformedLineSkipped_witness :
    linesToEvents
        [ "data: \x7b\"type\":\"content\",\"response_id\":2,\"content\":\"hi\"\x7d".data,
          "data: \x7bnotjson".data,
          "data: \x7b\"type\":\"streams_complete\"\x7d".data ]
      = linesToEvents
        [ "data: \x7b\"type\":\"content\",\"response_id\":2,\"content\":\"hi\"\x7d".data,
          "data: \x7b\"type\":\"streams_complete\"\x7d".data ]
    ∧ applyEvents initChatState (linesToEvents
        [ "data: \x7b\"type\":\"content\",\"response_id\":2,\"content\":\"hi\"\x7d".data,
          "data: \x7bnotjson".data,
          "data: \x7b\"type\":\"streams_complete\"\x7d".data ])
      = applyEvents initChatState (linesToEvents
        [ "data: \x7b\"type\":\"content\",\"response_id\":2,\"content\":\"hi\"\x7d".data,
          "data: \x7b\"type\":\"streams_complete\"\x7d".data ]) :=
  malformedLineSkipped
    [ "data: \x7b\"type\":\"content\",\"response_id\":2,\"content\":\"hi\"\x7d".data ]
    [ "data: \x7b\"type\":\"streams_complete\"\x7d".data ]
    "data: \x7bnotjson".data initChatState (by decide) rfl

/-- The transport response seen by `streamDualResponses`: the `ok` flag and
`status` of the `fetch` response, and its optional readable body delivered
as byte chunks. -/
structure TransportResponse where
  ok : Bool
  status : Nat
  body : Option (List (List Nat))

/-- The function `streamDualResponses` end to end: a non-ok response throws
`HTTP error! status: ...` before anything is read, a missing body throws
`No response body`, and otherwise the read loop yields the decoded
events. -/
def streamDualResponses (resp : TransportResponse) :
    Except String (List StreamEvent) :=
  if !resp.ok then .error ("HTTP error! status: " ++ toString resp.status)
  else
    match resp.body with
    | none => .error "No response body"
    | some chunks => .ok (sseEvents chunks)

/-- The exchange around the stream in `handleSubmit`: the `for await` loop
folds the events; a thrown error reaches the catch block, which only logs,
leaving the reducer state as it stood. -/
def runExchange (resp : TransportResponse) (st : ChatState) : ChatState :=
  match streamDualResponses resp with
  | .error _ => st
  | .ok es => applyEvents st es

/-- C4: a non-success transport response fails the operation with an error
carrying the status, and a missing body fails with `No response body`; in
both cases this happens before any event is produced, so the buffer state
is left untouched. -/
theorem transportFailureFailsFast (resp : TransportResponse) (st : ChatState) :
    (resp.ok = false →
      streamDualResponses resp
          = .error ("HTTP error! status: " ++ toString resp.status)
        ∧ runExchange resp st = st)
    ∧ (resp.ok = true → resp.body = none →
      streamDualResponses resp = .error "No response body"
        ∧ runExchange resp st = st) := by
  constructor
  · intro hok
    have h : streamDualResponses resp
        = .error ("HTTP error! status: " ++ toString resp.status) := by
      simp only [streamDualResponses, hok, Bool.not_false, if_true]
    exact ⟨h, by simp only [runExchange, h]⟩
  · intro hok hbody
    have h : streamDualResponses resp = .error "No response body" := by
      simp [streamDualResponses, hok, hbody]
    exact ⟨h, by simp only [runExchange, h]⟩

/-- C4 witness: a rejected stream open (status 500) leaves the freshly
initialized exchange state untouched. -/
theorem transportFailureFailsFast_witness :
    streamDualResponses { ok := false, status := 500, body := some [[104]] }
        = .error ("HTTP error! status: " ++ toString 500)
      ∧ runExchange { ok := false, status := 500, body := some [[104]] }
          initChatState = initChatState :=
  (transportFailureFailsFast
    { ok := false, status := 500, body := some [[104]] } initChatState).1 rfl

/-- A chat message (`role` is `"user"` or `"assistant"` in the source). -/
structure ChatMessage where
  role : String
  content : String
deriving Repr, DecidableEq

/-- The preference payload sent by `handleSelectResponse` to
`submitPreference`. -/
structure PreferenceRecord where
  session_id : String
  winner_index : Int
  responses : List String
  user_prompt : Option String
deriving Repr, DecidableEq

/-- The record-building part of `handleSelectResponse`: find the selected
buffer; when present, build the `PreferenceRecord` from the stale
`messages` binding (whose last entry is still the user prompt) and the two
buffers in list order.  `none` when no buffer has the id. -/
def handleSelectResponse (sessionId : String) (messages : List ChatMessage)
    (dualResponses : List DualResponse) (responseId : Int) :
    Option PreferenceRecord :=
  match dualResponses.find? (fun r => r.id == responseId) with
  | none => none
  | some _ =>
    some { session_id := sessionId
           winner_index := responseId - 1
           responses := dualResponses.map (fun r => r.content)
           user_prompt := (messages.getLast?).map (fun m => m.content) }

/-- C7: selecting the winner `rid` of {1, 2} submits `winner_index =
rid - 1`, the two buffers' contents in buffer-id order, the exchange's
session id, and the text of the most recent user message. -/
theorem preferenceRecordCorrect (sessionId : String) (ms : List ChatMessage)
    (p : String) (b1 b2 : DualResponse) (rid : Int)
    (h1 : b1.id = 1) (h2 : b2.id = 2) (hr : rid = 1 ∨ rid = 2) :
    handleSelectResponse sessionId (ms ++ [{ role := "user", content := p }])
        [b1, b2] rid
      = some { session_id := sessionId, winner_index := rid - 1,
               responses := [b1.content, b2.content],
               user_prompt := some p } := by
  have hlast : (ms ++ [({ role := "user", content := p } : ChatMessage)]).getLast?
      = some { role := "user", content := p } := List.getLast?_concat _
  rcases hr with hr | hr
  · subst hr
    have hfind : List.find? (fun r => r.id == (1 : Int)) [b1, b2] = some b1 := by
      rw [List.find?_cons_of_pos]
      rw [h1]
      exact beq_self_eq_true _
    simp [handleSelectResponse, hfind, hlast]
  · subst hr
    have hfind : List.find? (fun r => r.id == (2 : Int)) [b1, b2] = some b2 := by
      rw [List.find?_cons_of_neg, List.find?_cons_of_pos]
      · rw [h2]
        exact beq_self_eq_true _
      · rw [h1]
        decide
    simp [handleSelectResponse, hfind, hlast]

/-- C7 witness (Scenario D): selecting buffer 2 with buffer contents
`["A text", "B text"]` submits `winner_index = 1` and those responses. -/
theorem preferenceRecordCorrect_witness :
    handleSelectResponse "sess"
        [{ role := "user", content := "compare these" }]
        [ { id := 1, content := "A text", model := "m1", isStreaming := false },
          { id := 2, content := "B text", model := "m2", isStreaming := false } ] 2
      = some { session_id := "sess", winner_index := 1,
               responses := ["A text", "B text"],
               user_prompt := some "compare these" } :=
  preferenceRecordCorrect "sess" []
    "compare these"
    { id := 1, content := "A text", model := "m1", isStreaming := false }
    { id := 2, content := "B text", model := "m2", isStreaming := false }
    2 rfl rfl (Or.inr rfl)

/-- The selection-phase component state: the rendered buffers, the
highlighted selection, the chat history, the log of transmitted preference
records, and whether the 500 ms clearing timeout is pending. -/
structure UIState where
  messages : List ChatMessage
  dualResponses : List DualResponse
  selectedResponse : Option Int
  submitted : List PreferenceRecord
  pendingClear : Bool
deriving Repr, DecidableEq

/-- A user-observable step of the selection phase: clicking a response
card, or the clearing timeout firing. -/
inductive UIAction where
  | select (rid : Int)
  | clearFire
deriving Repr, DecidableEq

/-- One step of the selection lifecycle.  A click runs
`handleSelectResponse` when the clicked card is rendered and not streaming
(the `onClick` guard); the handler highlights the selection, appends the
chosen content to the chat, transmits the record, and schedules the clear.
The timeout empties the buffers and the highlight. -/
def uiStep (sessionId : String) (s : UIState) : UIAction → UIState
  | .select rid =>
    if (s.dualResponses.find? (fun r => r.id == rid && !r.isStreaming)).isSome then
      match s.dualResponses.find? (fun r => r.id == rid) with
      | none => { s with selectedResponse := some rid }
      | some resp =>
        { s with
          selectedResponse := some rid
          messages := s.messages ++ [{ role := "assistant", content := resp.content }]
          submitted := s.submitted
            ++ [ { session_id := sessionId
                   winner_index := rid - 1
                   responses := s.dualResponses.map (fun r => r.content)
                   user_prompt := (s.messages.getLast?).map (fun m => m.content) } ]
          pendingClear := true }
    else s
  | .clearFire =>
    if s.pendingClear then
      { s with dualResponses := [], selectedResponse := none,
               pendingClear := false }
    else s

/-- Folding a sequence of user actions through the selection phase. -/
def uiRun (sessionId : String) (s : UIState) (as : List UIAction) : UIState :=
  as.foldl (uiStep sessionId) s

/-- A finished exchange awaiting selection: both buffers complete, nothing
submitted yet. -/
def completedUIState : UIState :=
  { messages := [{ role := "user", content := "q" }]
    dualResponses :=
      [ { id := 1, content := "A", model := "m1", isStreaming := false },
        { id := 2, content := "B", model := "m2", isStreaming := false } ]
    selectedResponse := none
    submitted := []
    pendingClear := false }

/-- C8 counterexample: from a completed exchange, a second selection made
before the clearing timeout fires transmits a second `PreferenceRecord`:
nothing in `handleSelectResponse` or its `onClick` guard prevents it, so
the exchange submits twice, not at most once. -/
theorem preferenceSubmittedOnce_counterexample :
    (uiRun "s" completedUIState [UIAction.select 1, UIAction.select 2]).submitted.length = 2
      ∧ ¬ ((uiRun "s" completedUIState
            [UIAction.select 1, UIAction.select 2]).submitted.length ≤ 1) := by
  decide

/-- C8 (amended): each selection action transmits at most one record; a
selection while a buffer with that id is rendered and complete transmits
exactly one; and once the buffers have been cleared (as the timeout does)
no action can transmit any more.  The code does not, however, bound the
number of selection actions before the clear, so one record per exchange
is only guaranteed when the user selects once. -/
theorem preferenceSubmitPerClick (sessionId : String) (s : UIState) :
    (∀ a : UIAction,
      (uiStep sessionId s a).submitted.length ≤ s.submitted.length + 1)
    ∧ (∀ rid : Int,
        (s.dualResponses.find? (fun r => r.id == rid && !r.isStreaming)).isSome →
        (uiStep sessionId s (UIAction.select rid)).submitted.length
          = s.submitted.length + 1)
    ∧ (s.dualResponses = [] →
        ∀ a : UIAction, (uiStep sessionId s a).submitted = s.submitted) := by
  refine ⟨?_, ?_, ?_⟩
  · intro a
    cases a with
    | select rid =>
      simp only [uiStep]
      split_ifs with hg
      · cases hf : s.dualResponses.find? (fun r => r.id == rid) with
        | none => simp
        | some resp => simp
      · simp
    | clearFire =>
      simp only [uiStep]
      split_ifs <;> simp
  · intro rid hg
    have hf : ∃ resp, s.dualResponses.find? (fun r => r.id == rid) = some resp := by
      rcases Option.isSome_iff_exists.mp hg with ⟨r, hr⟩
      have hmem := List.mem_of_find?_eq_some hr
      have hpred := List.find?_some hr
      have : (s.dualResponses.find? (fun r => r.id == rid)).isSome := by
        apply List.find?_isSome.mpr
        refine ⟨r, hmem, ?_⟩
        exact (Bool.and_eq_true _ _).mp hpred |>.1
      exact Option.isSome_iff_exists.mp this
    rcases hf with ⟨resp, hresp⟩
    simp only [uiStep, hg, if_true, hresp]
    simp
  · intro hempty a
    cases a with
    | select rid =>
      simp only [uiStep, hempty, List.find?_nil]
      rfl
    | clearFire =>
      simp only [uiStep]
      split_ifs <;> rfl

/-- C8 witness: from the completed exchange state, one click on buffer 2
transmits exactly one record, and after the buffers are cleared a further
click transmits nothing. -/
theorem preferenceSubmitPerClick_witness :
    ((uiStep "s" completedUIState (UIAction.select 2)).submitted.length
        = completedUIState.submitted.length + 1)
      ∧ ((uiStep "s"
            { completedUIState with dualResponses := [] }
            (UIAction.select 2)).submitted
          = completedUIState.submitted) :=
  ⟨(preferenceSubmitPerClick "s" completedUIState).2.1 2 (by decide),
    (preferenceSubmitPerClick "s"
      { completedUIState with dualResponses := [] }).2.2 rfl (UIAction.select 2)⟩

theorem bufFold_id_eq (es : List StreamEvent) (r : DualResponse) :
    (bufFold es r).id = r.id := by
  induction es generalizing r with
  | nil => rfl
  | cons e es ih =>
    have h : bufFold (e :: es) r = bufFold es (bufStep e r) := rfl
    rw [h, ih, bufStep_id_eq]

/-- Every state the reducer reaches from the start of an exchange keeps
exactly the two declared buffer ids: the id hypotheses of the claims above
hold of every reachable state. -/
theorem reachable_ids (es : List StreamEvent) :
    ∀ r ∈ (applyEvents initChatState es).dualResponses, r.id = 1 ∨ r.id = 2 := by
  intro r hr
  rw [applyEvents_dualResponses] at hr
  rcases List.mem_map.mp hr with ⟨r0, hr0, hfold⟩
  have hid : r.id = r0.id := by rw [← hfold, bufFold_id_eq]
  rw [hid]
  simp only [initChatState, initResponses, List.mem_cons, List.mem_singleton,
    List.not_mem_nil, or_false] at hr0
  rcases hr0 with h | h <;> rw [h]
  · exact Or.inl rfl
  · exact Or.inr rfl
